import Mathlib

/-!
Shallow embedding of the DeepSeek-OCR2 webui document pipeline
(src/backend/DeepSeek-OCR2-master/DeepSeek-OCR2-vllm/openai_server.py).

Page texts are modelled as lists of characters (`Str`).  Python string
primitives used by the source (`in`, `str.replace`, slicing) are embedded as
executable functions with the same semantics.  The engine is external: one
generation session is a trace, i.e. the ordered list of full accumulated-text
snapshots the engine yields for that page.
-/

abbrev Str := List Char

/-- Python `pat in s` (substring containment). -/
def containsPat (pat : Str) : Str → Bool
  | [] => pat.isEmpty
  | c :: rest => pat.isPrefixOf (c :: rest) || containsPat pat rest

/-- Fuelled worker for `replaceAll`; fuel bounds the number of scanned
positions, one unit per step, so `s.length` fuel always suffices. -/
def replaceAllGo (pat repl : Str) : Nat → Str → Str
  | 0, s => s
  | _ + 1, [] => []
  | fuel + 1, c :: rest =>
    if pat ≠ [] ∧ pat.isPrefixOf (c :: rest) then
      repl ++ replaceAllGo pat repl fuel ((c :: rest).drop pat.length)
    else
      c :: replaceAllGo pat repl fuel rest

/-- Python `s.replace(pat, repl)`: replace every non-overlapping occurrence,
scanning left to right. -/
def replaceAll (pat repl s : Str) : Str :=
  replaceAllGo pat repl s.length s

/-- Split `s` at the first occurrence of `pat`, returning the text before the
occurrence and the text after it. -/
def splitFirst (pat : Str) : Str → Option (Str × Str)
  | [] => if pat.isEmpty then some ([], []) else none
  | c :: rest =>
    if pat.isPrefixOf (c :: rest) then some ([], (c :: rest).drop pat.length)
    else
      match splitFirst pat rest with
      | some (before, after) => some (c :: before, after)
      | none => none

/-! Literal tokens of the grounding markup grammar and of the pipeline. -/

def refOpenTok : Str := ("<|ref|>".toList)

def refCloseDetOpenTok : Str := ("<|/ref|><|det|>".toList)

def detCloseTok : Str := ("<|/det|>".toList)

def refImageTag : Str := ("<|ref|>image<|/ref|>".toList)

def labelImage : Str := ("image".toList)

def labelTitle : Str := ("title".toList)

def eosTok : Str := ("<｜end▁of▁sentence｜>".toList)

def groundingTok : Str := ("<|grounding|>".toList)

/-- `'\n' + page_num + '\n'` where `page_num = '\n<--- Page Split --->'`. -/
def pageSplitApp : Str := ("\n\n<--- Page Split --->\n".toList)

def coloneqqTok : Str := ("\\coloneqq".toList)

def coloneqRepl : Str := (":=".toList)

def eqqcolonTok : Str := ("\\eqqcolon".toList)

def eqqcolonRepl : Str := ("=:".toList)

def nl4 : Str := ("\n\n\n\n".toList)

def nl3 : Str := ("\n\n\n".toList)

def nl2 : Str := ("\n\n".toList)

/-- One match of `re_match`'s pattern
`(<\|ref\|>(.*?)<\|/ref\|><\|det\|>(.*?)<\|/det\|>)` — the full span plus the
two capture groups, exactly as the `re.findall` tuples hold them. -/
structure RefMatch where
  whole : Str
  label : Str
  coords : Str
deriving DecidableEq, Repr

/-- Fuelled scanner equivalent to `re.findall` with the pattern above under
`re.DOTALL`: the non-greedy label runs to the first `<|/ref|><|det|>` and the
non-greedy coords to the first `<|/det|>`; matches are non-overlapping, taken
left to right. -/
def reMatchGo : Nat → Str → List RefMatch
  | 0, _ => []
  | fuel + 1, s =>
    match splitFirst refOpenTok s with
    | none => []
    | some (_, afterRef) =>
      match splitFirst refCloseDetOpenTok afterRef with
      | none => []
      | some (label, afterLabel) =>
        match splitFirst detCloseTok afterLabel with
        | none => []
        | some (coords, rest) =>
          { whole := refOpenTok ++ label ++ refCloseDetOpenTok ++ coords ++ detCloseTok
            label := label
            coords := coords } :: reMatchGo fuel rest

/-- All grounding-markup matches of a text, in order of appearance. -/
def reMatch (s : Str) : List RefMatch :=
  reMatchGo s.length s

/-- `'<|ref|>image<|/ref|>' in a_match[0]` — the classification test used by
`re_match` to split matches into image-labelled and other. -/
def isImageMatch (m : RefMatch) : Bool :=
  containsPat refImageTag m.whole

/-- The triple returned by `re_match`: all matches, the image-classified ones
and the remaining ones, each list in text order. -/
structure MatchSplit where
  all : List RefMatch
  image : List RefMatch
  other : List RefMatch
deriving Repr

def reMatchTriple (s : Str) : MatchSplit :=
  let ms := reMatch s
  { all := ms
    image := ms.filter (fun m => isImageMatch m)
    other := ms.filter (fun m => ¬ isImageMatch m) }

/-! Python values produced by `eval` / `ast.literal_eval` on the coordinate
literal of a span: integers and (arbitrarily nested) lists of them. -/

inductive PyVal where
  | num (n : Int)
  | lst (xs : List PyVal)

/-- Skip spaces. -/
def skipWs : Str → Str
  | ' ' :: rest => skipWs rest
  | s => s

/-- Consume a run of decimal digits, accumulating their value. -/
def parseDigitsGo : Str → Nat → Nat × Str
  | c :: rest, acc =>
    if c.isDigit then parseDigitsGo rest (acc * 10 + (c.toNat - 48))
    else (acc, c :: rest)
  | [], acc => (acc, [])

/-- Parse a nonempty decimal digit run into a natural number. -/
def parseDigits : Str → Option (Nat × Str)
  | c :: rest =>
    if c.isDigit then some (parseDigitsGo rest (c.toNat - 48)) else none
  | [] => none

/-- Parse an optionally negated integer literal. -/
def parseNum : Str → Option (Int × Str)
  | '-' :: rest => (parseDigits rest).map (fun p => (-(p.1 : Int), p.2))
  | s => (parseDigits s).map (fun p => ((p.1 : Int), p.2))

/-- Parser state: either a value is expected next, or a value was just
completed and must be integrated into the enclosing open lists. -/
inductive PMode where
  | val (s : Str) (stack : List (List PyVal))
  | close (v : PyVal) (s : Str) (stack : List (List PyVal))

/-- Fuelled parser for the integer/list literal grammar accepted by the
source's `eval(ref_text[2])` / `ast.literal_eval(coords_str)` on well-formed
coordinate text (integer coordinates, arbitrarily nested list literals); any
other text makes the parse fail, modelling the caught evaluation exception.
Every recursive call consumes at least one character, so length-plus-two
fuel always suffices. -/
def parseStep : Nat → PMode → Option (PyVal × Str)
  | 0, _ => none
  | fuel + 1, .val s stack =>
    match skipWs s with
    | '[' :: rest =>
      match skipWs rest with
      | ']' :: rest2 => parseStep fuel (.close (.lst []) rest2 stack)
      | _ => parseStep fuel (.val rest ([] :: stack))
    | s' =>
      match parseNum s' with
      | some (n, rest) => parseStep fuel (.close (.num n) rest stack)
      | none => none
  | fuel + 1, .close v s stack =>
    match stack with
    | [] => some (v, s)
    | top :: more =>
      match skipWs s with
      | ',' :: rest => parseStep fuel (.val rest ((top ++ [v]) :: more))
      | ']' :: rest => parseStep fuel (.close (.lst (top ++ [v])) rest more)
      | _ => none

/-- Model of `eval`/`ast.literal_eval` on a coordinate literal: the whole
text must parse as one value with only trailing spaces left. -/
def parseCoordVal (s : Str) : Option PyVal :=
  match parseStep (s.length + 2) (.val s []) with
  | some (v, rest) => if (skipWs rest).isEmpty then some v else none
  | none => none

/-- `extract_coordinates_and_label`: the label capture plus the evaluated
coordinate literal; `None` when evaluation raises. -/
def extract_coordinates_and_label (m : RefMatch) : Option (Str × PyVal) :=
  match parseCoordVal m.coords with
  | some v => some (m.label, v)
  | none => none

/-! Coordinate denormalization.  Python `int(x)` truncates toward zero; on
the rationals this is floor for nonnegative arguments and negated floor of
the negation otherwise. -/

def pyInt (q : ℚ) : ℤ :=
  if 0 ≤ q then ⌊q⌋ else -⌊-q⌋

theorem pyInt_eq_floor {q : ℚ} (h : 0 ≤ q) : pyInt q = ⌊q⌋ := if_pos h

/-- `int(x1 / 999 * image_width)` from `draw_bounding_boxes`, idealized
over exact rationals: truncation toward zero of the exact quotient.  It is
used only where the result is insensitive to binary64 rounding — which
object an operation targets, how saved files are numbered, and the identity
box, whose inputs 0 and 999/999 are exact in binary64.  The IEEE binary64
evaluation the interpreter actually performs is modelled by
`denormDrawFloat` below and carries the numerical claims. -/
def denormDraw (raw : ℤ) (dim : ℕ) : ℤ :=
  pyInt ((raw : ℚ) / 999 * dim)

/-- `int(float(box[0]) / 999 * image_width)` from `parse_detections`,
idealized over exact rationals exactly as `denormDraw`; the binary64
evaluation is modelled by `denormParseFloat` below. -/
def denormParse (raw : ℤ) (dim : ℕ) : ℤ :=
  pyInt ((raw : ℚ) / 999 * dim)

/-- The denormalization the spec sentence describes:
`pixel_x = round(raw_x / 999 * image_width)`, rounding to nearest. -/
def specRoundDenorm (raw : ℤ) (dim : ℕ) : ℤ :=
  round ((raw : ℚ) / 999 * dim)

/-! Python evaluates `x1 / 999 * image_width` in IEEE binary64.  The model
below represents a nonnegative float as a mantissa/binary-exponent pair
with value `m * 2 ^ E`, and rounds a nonnegative rational `n / d` to 53
significant bits with round-to-nearest, ties-to-even — the IEEE default.
Everything is plain natural-number arithmetic, so concrete evaluations
reduce in the kernel.  Scope: normal finite doubles (the fuel covers every
magnitude arising from grid coordinates and page dimensions; overflow and
subnormals are out of range here), nonnegative values (the grid coordinates
the claims quantify over). -/

/-- Scale the fraction `n / d` into `[2^52, 2^53)` by powers of two,
keeping the value `(n / d) * 2 ^ e` constant. -/
def flScale : Nat → Nat → Nat → Int → Nat × Nat × Int
  | 0, n, d, e => (n, d, e)
  | fuel + 1, n, d, e =>
    if n < 2 ^ 52 * d then flScale fuel (2 * n) d (e - 1)
    else if 2 ^ 53 * d ≤ n then flScale fuel n (2 * d) (e + 1)
    else (n, d, e)

/-- Round `n / d` to the nearest integer, ties to even. -/
def rndHalfEven (n d : Nat) : Nat :=
  let f := n / d
  let r := n % d
  if 2 * r < d then f
  else if d < 2 * r then f + 1
  else if f % 2 = 0 then f else f + 1

/-- IEEE binary64 rounding of the nonnegative rational `n / d` (`d ≠ 0`):
the mantissa/exponent pair of the nearest double. -/
def flRound (n d : Nat) : Nat × Int :=
  if n = 0 then (0, 0)
  else
    let (n', d', e) := flScale 1200 n d 0
    (rndHalfEven n' d', e)

/-- Correctly rounded float multiplication: round the exact product. -/
def flMul (a b : Nat × Int) : Nat × Int :=
  let (m, e) := flRound (a.1 * b.1) 1
  (m, e + a.2 + b.2)

/-- `float(k)` for a nonnegative int `k` (exact below `2^53`). -/
def flOfNat (k : Nat) : Nat × Int := flRound k 1

/-- Python `n / d` on nonnegative ints: the correctly rounded true
quotient. -/
def flDivNat (n d : Nat) : Nat × Int := flRound n d

/-- Float-by-int division `a / k`, correctly rounded. -/
def flDivF (a : Nat × Int) (k : Nat) : Nat × Int :=
  match a.2 with
  | .ofNat e => flRound (a.1 * 2 ^ e) k
  | .negSucc e => flRound a.1 (k * 2 ^ (e + 1))

/-- The exact rational value of the float `(m, E)`, namely `m * 2 ^ E`. -/
def floatVal (a : Nat × Int) : ℚ := (a.1 : ℚ) * 2 ^ a.2

/-- Python `int()` of the nonnegative float `(m, E)`: truncation, i.e. the
floor `m * 2 ^ E` resp. `m / 2 ^ (-E)` in integer arithmetic. -/
def floatTrunc (a : Nat × Int) : Nat :=
  match a.2 with
  | .ofNat k => a.1 * 2 ^ k
  | .negSucc k => a.1 / 2 ^ (k + 1)

/-- Round-to-nearest (half up) of the nonnegative float `(m, E)`, the
operation the spec sentence claims in place of `int()`. -/
def floatRoundHalfUp (a : Nat × Int) : Nat :=
  match a.2 with
  | .ofNat k => a.1 * 2 ^ k
  | .negSucc k => (a.1 + 2 ^ k) / 2 ^ (k + 1)

/-- `int(x1 / 999 * image_width)` of `draw_bounding_boxes` under IEEE
binary64 evaluation: correctly rounded int/int division, then correctly
rounded multiplication by `float(image_width)`, then truncation. -/
def denormDrawFloat (raw dim : Nat) : Nat :=
  floatTrunc (flMul (flDivNat raw 999) (flOfNat dim))

/-- `int(float(box[0]) / 999 * image_width)` of `parse_detections` under
IEEE binary64 evaluation: `float()` conversion first, then float/int
division, multiplication, truncation. -/
def denormParseFloat (raw dim : Nat) : Nat :=
  floatTrunc (flMul (flDivF (flOfNat raw) 999) (flOfNat dim))

example : reMatch ("<|ref|>title<|/ref|><|det|>[[0,0,999,999]]<|/det|>".toList) =
    [⟨("<|ref|>title<|/ref|><|det|>[[0,0,999,999]]<|/det|>".toList),
      ("title".toList), ("[[0,0,999,999]]".toList)⟩] := by decide
example : parseCoordVal ("[[1,2,3,4]]".toList) =
    some (.lst [.lst [.num 1, .num 2, .num 3, .num 4]]) := rfl
example : parseCoordVal ("[abc]".toList) = none := rfl
example : replaceAll ("\n\n\n\n".toList) ("\n\n".toList)
    ("\n\n\n\n\n\n\n\n".toList) = ("\n\n\n\n".toList) := by decide

/-! The clean-markdown substitutions of `ocr_pdf_handle` (and of
`stream_ocr_pdf_handle`), lines 504-512: image-classified spans are replaced
by numbered image embeds, then, once per remaining match, the span is removed
and the math-escape and blank-line replacements run. -/

def natStr (n : Nat) : Str := ((Nat.repr n).toList)

/-- `f'![](images/' + str(jdx) + '_' + str(idx) + '.jpg)\n'`. -/
def imageEmbed (jdx idx : Nat) : Str :=
  ("![](images/".toList) ++ natStr jdx ++ ("_".toList) ++ natStr idx ++
    (".jpg)\n".toList)

/-- One iteration of the loop over `mathes_other`:
`content.replace(a_match_other, '').replace('\\coloneqq', ':=')
.replace('\\eqqcolon', '=:').replace('\n\n\n\n', '\n\n')
.replace('\n\n\n', '\n\n')`. -/
def otherSubstStep (c : Str) (m : RefMatch) : Str :=
  replaceAll nl3 nl2
    (replaceAll nl4 nl2
      (replaceAll eqqcolonTok eqqcolonRepl
        (replaceAll coloneqqTok coloneqRepl
          (replaceAll m.whole [] c))))

/-- One iteration of the loop over `matches_images`:
`content.replace(a_match_image, f'![](images/{jdx}_{idx}.jpg)\n')`. -/
def imageSubstStep (jdx : Nat) (c : Str) (p : Nat × RefMatch) : Str :=
  replaceAll p.2.whole (imageEmbed jdx p.1) c

/-- The whole clean-markdown substitution pass applied to one page's text:
first the image-embed loop, then the other-match loop. -/
def applySubsts (imgs others : List RefMatch) (jdx : Nat) (c : Str) : Str :=
  others.foldl otherSubstStep (imgs.enum.foldl (imageSubstStep jdx) c)

/-- The image-embed loop instrumented with the references it introduces: an
index is logged exactly when its span text occurs in the running content, so
the log is the set of `{jdx}_{idx}` file names the clean markdown ends up
referring to. -/
def imageSubstLog (jdx : Nat) (imgs : List RefMatch) (c : Str) :
    Str × List (Nat × Nat) :=
  imgs.enum.foldl
    (fun st p =>
      (imageSubstStep jdx st.1 p,
       if containsPat p.2.whole st.1 then st.2 ++ [(jdx, p.1)] else st.2))
    (c, [])

/-! The page-accumulation loop of `ocr_pdf_handle` (lines 482-514).  The
engine is external, so each page is represented by its trace: the list of
full accumulated-text snapshots `engine.generate` yields for it.  The loop
body runs once per snapshot; `draw_images` is tracked by its length. -/

structure DocState where
  contentsDet : Str
  contents : Str
  drawCount : Nat
  jdx : Nat

def initDocState : DocState := ⟨[], [], 0, 0⟩

/-- One iteration of `async for output in engine.generate(...)` inside the
page loop: the end-of-sequence marker is stripped when present, otherwise the
snapshot is skipped when `SKIP_REPEAT` is set; a processed snapshot appends
to the raw markdown, renders one PDF frame, and appends the substituted text
to the clean markdown. -/
def processSnapshot (skipRepeat : Bool) (st : DocState) (snapshot : Str) :
    DocState :=
  let content? : Option Str :=
    if containsPat eosTok snapshot then some (replaceAll eosTok [] snapshot)
    else if skipRepeat then none
    else some snapshot
  match content? with
  | none => st
  | some content =>
    let ms := reMatchTriple content
    { contentsDet := st.contentsDet ++ content ++ pageSplitApp
      contents :=
        st.contents ++ applySubsts ms.image ms.other st.jdx content ++
          pageSplitApp
      drawCount := st.drawCount + 1
      jdx := st.jdx + 1 }

/-- One page of the loop `for batch_input, img in zip(batch_inputs, images)`. -/
def processPage (skipRepeat : Bool) (st : DocState) (trace : List Str) :
    DocState :=
  trace.foldl (processSnapshot skipRepeat) st

/-- The accumulation phase of `ocr_pdf_handle` over a whole document, one
trace per rasterized page.  (The earlier identical generation loop that fills
the discarded `outputs_list` is omitted: it writes nothing.) -/
def processDoc (skipRepeat : Bool) (traces : List (List Str)) : DocState :=
  traces.foldl (processPage skipRepeat) initDocState

/-- The text a page trace contributes to the raw markdown under
`SKIP_REPEAT`: one block per snapshot that carries the end-of-sequence
marker, the marker stripped, followed by the page-split marker. -/
def contributedOf (trace : List Str) : List Str :=
  (trace.filter (fun s => containsPat eosTok s)).map
    (fun s => replaceAll eosTok [] s ++ pageSplitApp)

/-! The delta bookkeeping of `stream_response` (lines 228-243): `prev_len`
starts at zero, each snapshot emits the suffix past `prev_len` when nonempty,
and `prev_len` is set to the snapshot's length. -/

def streamStep (st : List Str × Nat) (fullText : Str) : List Str × Nat :=
  let delta := fullText.drop st.2
  (if delta = [] then st.1 else st.1 ++ [delta], fullText.length)

/-- The list of deltas `stream_response` emits for one engine trace. -/
def stream_response_deltas (trace : List Str) : List Str :=
  (trace.foldl streamStep ([], 0)).1

/-- The streaming PDF generator `stream_ocr_pdf_handle`, run on the traces of
the document's pages.  After emitting a snapshot's delta the body reads the
variable `content`, which is never assigned anywhere in the function, so the
first snapshot of the first nonempty trace raises `NameError`; only a
document whose traces are all empty reaches the artifact writes and the final
stop chunk.  Returns the emitted deltas and whether the generator completed
(artifacts written, stop chunk and `[DONE]` emitted) rather than raised. -/
def streamOcrPdfRun : List (List Str) → Nat → List Str × Bool
  | [], _ => ([], true)
  | trace :: rest, prevLen =>
    match trace with
    | [] => streamOcrPdfRun rest prevLen
    | snap :: _ =>
      let delta := snap.drop prevLen
      (if delta = [] then [] else [delta], false)

/-! `process_pdf` (lines 255-275).  The non-streaming branch awaits
`ocr_pdf_handle` and wraps its text in a chat completion; the streaming
branch evaluates `stream_ocr_pdf_handle(pdf_bytes, request)` — which merely
creates an async generator object that is neither returned, awaited, nor
wrapped in a `StreamingResponse` — and falls off the end of the function,
returning Python `None`. -/

inductive PdfChatResponse where
  | completion (text : Str)
  | pyNone
deriving DecidableEq

def process_pdf (stream : Bool) (skipRepeat : Bool)
    (traces : List (List Str)) : PdfChatResponse :=
  if stream = false then .completion (processDoc skipRepeat traces).contents
  else .pyNone

/-! Artifact persistence at the end of `ocr_pdf_handle` (lines 516-533).
The two markdown writes are bare `open(...).write(...)` calls whose
exceptions propagate to the caller (through the `finally` that deletes the
temporary upload), while `pil_to_pdf_img2pdf` wraps its conversion and write
in `try/except Exception: print(...)`, swallowing any failure; it also
returns immediately when there are no frames.  Each artifact's storage
outcome is a boolean: `true` when the write would succeed. -/

def pil_to_pdf_img2pdf (pdfOk : Bool) (frames : Nat) : Bool :=
  if frames = 0 then false else pdfOk

structure OcrPersistResult where
  success : Bool
  pdfWritten : Bool
deriving DecidableEq

def persistArtifacts (detOk mdOk pdfOk : Bool) (frames : Nat) :
    Except String OcrPersistResult :=
  if detOk = false then .error "IOError"
  else if mdOk = false then .error "IOError"
  else .ok { success := true, pdfWritten := pil_to_pdf_img2pdf pdfOk frames }

/-! The rasterizer `pdf_to_images_high_quality` (lines 277-308).  A parsed
PDF is its list of page pixmap dimensions.  Decoding a pixmap into a PIL
image checks `Image.MAX_IMAGE_PIXELS` — but the loop body sets that global to
`None` before every `Image.open`, so no page is ever rejected.  The model
returns the final value of the global together with the decoded images. -/

def openImageModel (cap : Option Nat) (dims : Nat × Nat) :
    Except String (Nat × Nat) :=
  match cap with
  | some c => if dims.1 * dims.2 > c then .error "DecompressionBombError"
              else .ok dims
  | none => .ok dims

def pilDefaultMaxPixels : Nat := 178956970

def pdf_to_images_go (pages : List (Nat × Nat)) (cap : Option Nat)
    (acc : List (Nat × Nat)) : Except String (Option Nat × List (Nat × Nat)) :=
  match pages with
  | [] => .ok (cap, acc)
  | pg :: rest =>
    match openImageModel none pg with
    | .error e => .error e
    | .ok im => pdf_to_images_go rest none (acc ++ [im])

def pdf_to_images_high_quality (cap0 : Option Nat)
    (pages : List (Nat × Nat)) : Except String (Option Nat × List (Nat × Nat)) :=
  pdf_to_images_go pages cap0 []

/-! The annotation renderer `draw_bounding_boxes` (lines 320-383).  PIL
images are mutable objects, so the model uses an explicit heap of abstract
bitmaps addressed by references; `ImageDraw.Draw(obj)` calls mutate the heap
cell of `obj`, `image.copy()` and `Image.new` allocate fresh cells, and
`image.crop` reads without writing.  The pixel operations themselves are an
abstract parameter: the claims are about which object each operation
targets, not about pixel arithmetic.  Random colors and the caught per-box
drawing/cropping exceptions are not tracked (every operation succeeds). -/

structure PixOps (B : Type) where
  size : B → Nat × Nat
  blank : Nat × Nat → B
  drawRect : B → ℤ × ℤ × ℤ × ℤ → Nat → B
  fillRect : B → ℤ × ℤ × ℤ × ℤ → B
  caption : B → ℤ × ℤ → Str → B
  crop : B → ℤ × ℤ × ℤ × ℤ → B
  paste : B → B → B

structure RenderSt (B : Type) where
  heap : List B
  saved : List ((Nat × Nat) × B)
  imgIdx : Nat

/-- The `x1, y1, x2, y2 = points` unpacking followed by the four integer
denormalizations: it succeeds exactly on a list of four numbers, and any
other element raises, which the per-match `except` turns into abandoning
the remaining boxes of this match (earlier effects persist). -/
def boxOfPyVal : PyVal → Option (ℤ × ℤ × ℤ × ℤ)
  | .lst [.num a, .num b, .num c, .num d] => some (a, b, c, d)
  | _ => none

/-- The body of the `for points in points_list` loop for one well-formed
box: denormalize its corners, crop-and-save from the *original* `image`
argument when the label is `image` (incrementing `img_idx`), then draw the
outline on `img_draw` (width 4 for `title`, else 2), the translucent fill
on `overlay`, and the caption on `img_draw`. -/
def boxStep {B : Type} (ops : PixOps B)
    (imageRef imgDrawRef overlayRef : Nat) (w h : Nat) (lab : Str)
    (jdx : Nat) (st : RenderSt B) (a b c d : ℤ) : RenderSt B :=
  let x1 := denormDraw a w
  let y1 := denormDraw b h
  let x2 := denormDraw c w
  let y2 := denormDraw d h
  let st1 :=
    if lab = labelImage then
      { st with
        saved := st.saved ++
          [((jdx, st.imgIdx),
            ops.crop (st.heap.getD imageRef (ops.blank (0, 0)))
              (x1, y1, x2, y2))]
        imgIdx := st.imgIdx + 1 }
    else st
  let widthN : Nat := if lab = labelTitle then 4 else 2
  let canvas := st1.heap.getD imgDrawRef (ops.blank (0, 0))
  let canvas2 :=
    ops.caption (ops.drawRect canvas (x1, y1, x2, y2) widthN)
      (x1, max 0 (y1 - 15)) lab
  let ov := st1.heap.getD overlayRef (ops.blank (0, 0))
  { st1 with
    heap := (st1.heap.set imgDrawRef canvas2).set overlayRef
      (ops.fillRect ov (x1, y1, x2, y2)) }

/-- The inner `for points in points_list` loop for one match. -/
def processBoxes {B : Type} (ops : PixOps B)
    (imageRef imgDrawRef overlayRef : Nat) (w h : Nat) (lab : Str)
    (jdx : Nat) : RenderSt B → List PyVal → RenderSt B
  | st, [] => st
  | st, v :: restPts =>
    match boxOfPyVal v with
    | none => st
    | some (a, b, c, d) =>
      processBoxes ops imageRef imgDrawRef overlayRef w h lab jdx
        (boxStep ops imageRef imgDrawRef overlayRef w h lab jdx st a b c d)
        restPts

structure RenderResult (B : Type) where
  heap : List B
  saved : List ((Nat × Nat) × B)
  resultRef : Nat

/-- The body of `for i, ref in enumerate(refs)`: a failed coordinate
evaluation (`extract_coordinates_and_label` returned `None`) or a
non-iterable literal contributes nothing; otherwise the boxes of the match
are processed. -/
def renderMatchStep {B : Type} (ops : PixOps B)
    (imageRef imgDrawRef overlayRef : Nat) (w h : Nat) (jdx : Nat)
    (st : RenderSt B) (m : RefMatch) : RenderSt B :=
  match extract_coordinates_and_label m with
  | none => st
  | some (lab, v) =>
    match v with
    | .lst pts =>
      processBoxes ops imageRef imgDrawRef overlayRef w h lab jdx st pts
    | .num _ => st

/-- `draw_bounding_boxes(image, refs, jdx)`: copy the input image, allocate
the transparent overlay, process every match, then composite the overlay
onto the copy with the single final `paste` and return the copy's
reference. -/
def draw_bounding_boxes {B : Type} (ops : PixOps B) (heap0 : List B)
    (imageRef : Nat) (refs : List RefMatch) (jdx : Nat) : RenderResult B :=
  let img := heap0.getD imageRef (ops.blank (0, 0))
  let wh := ops.size img
  let imgDrawRef := heap0.length
  let heap1 := heap0 ++ [img]
  let overlayRef := heap1.length
  let heap2 := heap1 ++ [ops.blank (ops.size img)]
  let stF := refs.foldl
    (renderMatchStep ops imageRef imgDrawRef overlayRef wh.1 wh.2 jdx)
    ⟨heap2, [], 0⟩
  { heap := stF.heap.set imgDrawRef
      (ops.paste (stF.heap.getD imgDrawRef (ops.blank (0, 0)))
        (stF.heap.getD overlayRef (ops.blank (0, 0))))
    saved := stF.saved
    resultRef := imgDrawRef }

/-- The `{jdx}_{img_idx}` numbers of the sub-image files the renderer saves. -/
def savedNames {B : Type} (r : RenderResult B) : List (Nat × Nat) :=
  r.saved.map (fun p => p.1)

/-- A concrete bitmap instance for evaluating the renderer: bitmaps are
natural numbers and every operation is arithmetic. -/
def natOps : PixOps Nat :=
  { size := fun _ => (999, 999)
    blank := fun _ => 0
    drawRect := fun b _ _ => b + 1
    fillRect := fun b _ => b + 1
    caption := fun b _ _ => b + 1
    crop := fun b r => b * 1000 + (r.1.toNat + r.2.1.toNat)
    paste := fun a b => a * 100 + b }

/-! Demonstration inputs used by counterexamples and witnesses. -/

/-- A well-formed single-box image-labelled span. -/
def imgSpanDemo : RefMatch :=
  ⟨("<|ref|>image<|/ref|><|det|>[[1,2,3,4]]<|/det|>".toList),
    ("image".toList), ("[[1,2,3,4]]".toList)⟩

def imgSpanText : Str :=
  ("<|ref|>image<|/ref|><|det|>[[1,2,3,4]]<|/det|>".toList)

/-- The same span duplicated: a page whose text contains it twice. -/
def dupSpanText : Str := imgSpanText ++ imgSpanText

/-- A well-formed single-box non-image span. -/
def otherSpanDemo : RefMatch :=
  ⟨("<|ref|>text<|/ref|><|det|>[[1,2,3,4]]<|/det|>".toList),
    ("text".toList), ("[[1,2,3,4]]".toList)⟩

/-! ### Denormalization (claims C3 and C9) -/

theorem floatTrunc_eq_floor (a : Nat × Int) :
    (floatTrunc a : ℤ) = ⌊floatVal a⌋ := by
  rcases a with ⟨m, e⟩
  cases e with
  | ofNat k =>
    simp only [floatTrunc, floatVal, Int.ofNat_eq_natCast, zpow_natCast]
    rw [show ((m : ℚ) * 2 ^ k) = ((m * 2 ^ k : ℕ) : ℚ) by push_cast; ring,
      Int.floor_natCast]
  | negSucc k =>
    simp only [floatTrunc, floatVal, zpow_negSucc]
    rw [show ((m : ℚ) * ((2 : ℚ) ^ (k + 1))⁻¹) =
        ((m : ℕ) : ℚ) / ((2 ^ (k + 1) : ℕ) : ℚ) by push_cast; ring]
    rw [Rat.floor_natCast_div_natCast]
    exact (Int.ofNat_div _ _).symm

theorem floatRound_eq_round (a : Nat × Int) :
    (floatRoundHalfUp a : ℤ) = round (floatVal a) := by
  rcases a with ⟨m, e⟩
  cases e with
  | ofNat k =>
    simp only [floatRoundHalfUp, floatVal, Int.ofNat_eq_natCast,
      zpow_natCast]
    rw [show ((m : ℚ) * 2 ^ k) = ((m * 2 ^ k : ℕ) : ℚ) by push_cast; ring,
      round_natCast]
  | negSucc k =>
    simp only [floatRoundHalfUp, floatVal, zpow_negSucc]
    rw [round_eq]
    rw [show ((m : ℚ) * ((2 : ℚ) ^ (k + 1))⁻¹ + 1 / 2) =
        ((m + 2 ^ k : ℕ) : ℚ) / ((2 ^ (k + 1) : ℕ) : ℚ) by
      push_cast
      field_simp
      ring]
    rw [Rat.floor_natCast_div_natCast]
    exact (Int.ofNat_div _ _).symm

theorem floor_le_round_le (q : ℚ) : ⌊q⌋ ≤ round q ∧ round q ≤ ⌊q⌋ + 1 := by
  rw [round_eq]
  refine ⟨Int.floor_le_floor (by linarith), ?_⟩
  calc ⌊q + 1 / 2⌋ ≤ ⌊q + 1⌋ := Int.floor_le_floor (by linarith)
    _ = ⌊q⌋ + 1 := by rw [Int.floor_add_one]

set_option maxRecDepth 4000 in
/-- C3, amended.  Both denormalization sites apply `int()` — truncation,
i.e. the floor of the nonnegative binary64 value actually computed — not
round-to-nearest; truncation never exceeds round-to-nearest and falls at
most one below it.  The binary64 evaluations themselves are reproduced
exactly: `int(819/999*1221)` is 1000 in the code (the double product falls
just below 1001) though the exact rational floor is 1001, and
`int(765/999*1221)` is 934 against an exact 935, while `999/999*1221`
stays exact at 1221; the renderer and parser sites agree at these
inputs. -/
theorem denormalization_truncates (r d : ℕ) :
    ((denormDrawFloat r d : ℤ) =
        ⌊floatVal (flMul (flDivNat r 999) (flOfNat d))⌋ ∧
      (denormParseFloat r d : ℤ) =
        ⌊floatVal (flMul (flDivF (flOfNat r) 999) (flOfNat d))⌋ ∧
      ⌊floatVal (flMul (flDivNat r 999) (flOfNat d))⌋ ≤
        round (floatVal (flMul (flDivNat r 999) (flOfNat d))) ∧
      round (floatVal (flMul (flDivNat r 999) (flOfNat d))) ≤
        ⌊floatVal (flMul (flDivNat r 999) (flOfNat d))⌋ + 1) ∧
      (denormDrawFloat 819 1221 = 1000 ∧ denormParseFloat 819 1221 = 1000 ∧
        819 * 1221 / 999 = 1001 ∧
        denormDrawFloat 765 1221 = 934 ∧ denormParseFloat 765 1221 = 934 ∧
        765 * 1221 / 999 = 935 ∧
        denormDrawFloat 999 1221 = 1221 ∧
        denormParseFloat 999 1221 = 1221) :=
  ⟨⟨floatTrunc_eq_floor _, floatTrunc_eq_floor _,
      (floor_le_round_le _).1, (floor_le_round_le _).2⟩,
    by refine ⟨?_, ?_, ?_, ?_, ?_, ?_, ?_, ?_⟩ <;> decide⟩

set_option maxRecDepth 4000 in
/-- C3, counterexample.  At raw coordinate 1 on a 600-pixel dimension the
binary64 value of `1/999*600` lies just above 0.6: the code truncates it to
0 in both sites, while rounding that same double to nearest gives 1 — as
does the spec formula `round(raw/999*dim)` over exact rationals — so the
claim is false at this input. -/
theorem denormalization_is_not_rounding_cex :
    denormDrawFloat 1 600 = 0 ∧ denormParseFloat 1 600 = 0 ∧
      round (floatVal (flMul (flDivNat 1 999) (flOfNat 600))) = 1 ∧
      specRoundDenorm 1 600 = 1 ∧
      (denormDrawFloat 1 600 : ℤ) ≠ specRoundDenorm 1 600 := by
  have h2 : specRoundDenorm 1 600 = 1 := by
    rw [specRoundDenorm, round_eq]
    rw [show ((1 : ℤ) : ℚ) / 999 * ((600 : ℕ) : ℚ) = 200 / 333 by norm_num]
    rw [Int.floor_eq_iff]
    constructor
    · norm_num
    · norm_num
  have h3 : round (floatVal (flMul (flDivNat 1 999) (flOfNat 600))) = 1 := by
    rw [← floatRound_eq_round]
    decide
  refine ⟨by decide, by decide, h3, h2, ?_⟩
  rw [h2]
  decide

/-- C9.  Denormalizing the identity box `[0,0,999,999]` on a page of
dimensions `w × h` yields exactly the pixel box `[0,0,w,h]`:
`int(0/999*d) = 0` and `int(999/999*d) = d`. -/
theorem identity_box_denormalizes_to_page_dims (w h : ℕ) :
    denormDraw 0 w = 0 ∧ denormDraw 0 h = 0 ∧
      denormDraw 999 w = (w : ℤ) ∧ denormDraw 999 h = (h : ℤ) := by
  have h0 : ∀ d : ℕ, denormDraw 0 d = 0 := by
    intro d
    rw [denormDraw]
    norm_num [pyInt]
  have h9 : ∀ d : ℕ, denormDraw 999 d = (d : ℤ) := by
    intro d
    rw [denormDraw, pyInt_eq_floor (by positivity)]
    rw [show ((999 : ℤ) : ℚ) / 999 * (d : ℚ) = (d : ℚ) by norm_num]
    exact Int.floor_natCast d
  exact ⟨h0 w, h0 h, h9 w, h9 h⟩

/-! ### The streaming entry point (claim C2) -/

/-- C2, failing behaviour.  For every PDF chat request with streaming
enabled, `process_pdf` returns Python `None`: the `else` branch evaluates
`stream_ocr_pdf_handle(pdf_bytes, request)` — creating an async generator
object that is neither returned, awaited, nor wrapped in a
`StreamingResponse` — and falls off the end of the function, so the caller
receives no delta events, no end event, and no artifacts are persisted. -/
theorem process_pdf_streaming_returns_pynone (skip : Bool)
    (traces : List (List Str)) :
    process_pdf true skip traces = PdfChatResponse.pyNone := rfl

/-! ### Artifact persistence (claim C5) -/

/-- C5, amended.  The handler surfaces a failure of either markdown write
(the exception propagates to the caller), but a failure to persist the
annotated output PDF is caught inside `pil_to_pdf_img2pdf` and merely
printed: the handler still returns success. -/
theorem persistence_ok_iff_markdown_writes_ok (detOk mdOk pdfOk : Bool)
    (frames : Nat) :
    (∃ r, persistArtifacts detOk mdOk pdfOk frames = .ok r) ↔
      detOk = true ∧ mdOk = true := by
  cases detOk <;> cases mdOk <;> simp [persistArtifacts]

/-- C5, counterexample.  With both markdown writes succeeding and the PDF
write failing, the handler returns success with no PDF artifact written —
the persistence failure is swallowed, contradicting the claim that any
artifact's failure surfaces as an `IOError`. -/
theorem pdf_artifact_failure_swallowed_cex :
    persistArtifacts true true false 3 =
      .ok { success := true, pdfWritten := false } := rfl

/-! ### The clean-markdown transform (claim C6) -/

/-- C6, amended.  The span-removal, math-escape and blank-line replacements
run once per non-image matched span: with no such span the page text passes
through the other-match loop unchanged (and the grounding marker is never
stripped in this path), while with one such span present `\coloneqq` is
normalized but a run of 8 newlines collapses only to 3 newlines, not to one
blank line. -/
theorem clean_normalizations_once_per_other_match :
    (∀ (jdx : Nat) (c : Str), applySubsts [] [] jdx c = c) ∧
      applySubsts [] [otherSpanDemo] 0
          (otherSpanDemo.whole ++ coloneqqTok ++ List.replicate 8 '\n') =
        coloneqRepl ++ nl3 :=
  ⟨fun _ _ => rfl, by decide⟩

/-- C6, counterexample.  A page text with no non-image matched span but
containing `\coloneqq`, a run of more than three newlines, and the
grounding marker is returned entirely unchanged by the substitution pass of
`ocr_pdf_handle`, contradicting the claim that these normalizations apply
whenever the clean transform runs. -/
theorem clean_normalizations_skipped_without_other_match_cex :
    applySubsts [] [] 0 ("x\\coloneqq y\n\n\n\n\n z<|grounding|>".toList) =
        ("x\\coloneqq y\n\n\n\n\n z<|grounding|>".toList) ∧
      containsPat coloneqqTok
          ("x\\coloneqq y\n\n\n\n\n z<|grounding|>".toList) = true ∧
      containsPat nl4 ("x\\coloneqq y\n\n\n\n\n z<|grounding|>".toList) =
        true ∧
      containsPat groundingTok
          ("x\\coloneqq y\n\n\n\n\n z<|grounding|>".toList) = true :=
  ⟨rfl, by decide, by decide, by decide⟩

/-! ### The rasterizer (claim C7) -/

theorem pdf_to_images_go_spec (pages : List (Nat × Nat)) :
    ∀ (cap : Option Nat) (acc : List (Nat × Nat)),
      pdf_to_images_go pages cap acc =
        .ok ((if pages.isEmpty then cap else none), acc ++ pages) := by
  induction pages with
  | nil => intro cap acc; simp [pdf_to_images_go]
  | cons pg rest ih =>
    intro cap acc
    simp [pdf_to_images_go, openImageModel, ih]

/-- C7, amended.  A zero-page PDF rasterizes to the empty image sequence
(no error), but there is no decoded-pixel cap: the loop body sets the PIL
`Image.MAX_IMAGE_PIXELS` global to `None` before every decode, so every
page of every size is accepted, whatever cap was previously installed. -/
theorem rasterizer_disables_pixel_cap (cap0 : Option Nat)
    (pages : List (Nat × Nat)) :
    pdf_to_images_high_quality cap0 pages =
      .ok ((if pages.isEmpty then cap0 else none), pages) := by
  rw [pdf_to_images_high_quality, pdf_to_images_go_spec]
  rfl

/-- C7, counterexample.  A single page of 10^12 decoded pixels — far above
the PIL default decompression-bomb cap that was installed before the call —
is accepted by the rasterizer, contradicting the claim that a finite cap on
decoded pixel count is enforced. -/
theorem rasterizer_accepts_oversized_page_cex :
    pdf_to_images_high_quality (some pilDefaultMaxPixels)
        [(1000000, 1000000)] = .ok (none, [(1000000, 1000000)]) ∧
      1000000 * 1000000 > pilDefaultMaxPixels :=
  ⟨rfl, by norm_num [pilDefaultMaxPixels]⟩

/-! ### Page contribution in `ocr_pdf_handle` (claim C1) -/

theorem processPage_true_spec (tr : List Str) :
    ∀ st : DocState,
      (processPage true st tr).contentsDet =
          st.contentsDet ++ (contributedOf tr).flatten ∧
        (processPage true st tr).drawCount =
          st.drawCount +
            (tr.filter (fun s => containsPat eosTok s)).length ∧
        (processPage true st tr).jdx =
          st.jdx + (tr.filter (fun s => containsPat eosTok s)).length := by
  induction tr with
  | nil => intro st; simp [processPage, contributedOf]
  | cons s rest ih =>
    intro st
    have hstep : processPage true st (s :: rest) =
        processPage true (processSnapshot true st s) rest := rfl
    cases hc : containsPat eosTok s with
    | false =>
      have hskip : processSnapshot true st s = st := by
        simp [processSnapshot, hc]
      rw [hstep, hskip]
      have h1 := ih st
      simpa [contributedOf, List.filter_cons, hc] using h1
    | true =>
      rw [hstep]
      obtain ⟨hdet, hdraw, hjdx⟩ := ih (processSnapshot true st s)
      have hfd : (processSnapshot true st s).contentsDet =
          st.contentsDet ++ (replaceAll eosTok [] s ++ pageSplitApp) := by
        simp [processSnapshot, hc, List.append_assoc]
      have hfc : (processSnapshot true st s).drawCount = st.drawCount + 1 := by
        simp [processSnapshot, hc]
      have hfj : (processSnapshot true st s).jdx = st.jdx + 1 := by
        simp [processSnapshot, hc]
      refine ⟨?_, ?_, ?_⟩
      · rw [hdet, hfd]
        simp [contributedOf, List.filter_cons, hc, List.append_assoc]
      · rw [hdraw, hfc]
        simp [List.filter_cons, hc]
        omega
      · rw [hjdx, hfj]
        simp [List.filter_cons, hc]
        omega

theorem processDocAux_true_spec (traces : List (List Str)) :
    ∀ st : DocState,
      (traces.foldl (processPage true) st).contentsDet =
          st.contentsDet ++ ((traces.map contributedOf).flatten).flatten ∧
        (traces.foldl (processPage true) st).drawCount =
          st.drawCount +
            (traces.map
              (fun tr =>
                (tr.filter (fun s => containsPat eosTok s)).length)).sum ∧
        (traces.foldl (processPage true) st).jdx =
          st.jdx +
            (traces.map
              (fun tr =>
                (tr.filter (fun s => containsPat eosTok s)).length)).sum := by
  induction traces with
  | nil => intro st; simp
  | cons tr rest ih =>
    intro st
    have hfold : (tr :: rest).foldl (processPage true) st =
        rest.foldl (processPage true) (processPage true st tr) := rfl
    rw [hfold]
    rcases ih (processPage true st tr) with ⟨hdet, hdraw, hjdx⟩
    rcases processPage_true_spec tr st with ⟨pdet, pdraw, pjdx⟩
    refine ⟨?_, ?_, ?_⟩
    · rw [hdet, pdet]; simp [List.append_assoc]
    · rw [hdraw, pdraw]; simp; omega
    · rw [hjdx, pjdx]; simp; omega

theorem sum_counts_eq_filter_length (traces : List (List Str))
    (H : ∀ tr ∈ traces,
      (tr.filter (fun s => containsPat eosTok s)).length ≤ 1) :
    (traces.map
        (fun tr => (tr.filter (fun s => containsPat eosTok s)).length)).sum =
      (traces.filter
        (fun tr => tr.any (fun s => containsPat eosTok s))).length := by
  induction traces with
  | nil => simp
  | cons tr rest ih =>
    have hrest := ih (fun t ht => H t (List.mem_cons_of_mem tr ht))
    have hhead := H tr (List.mem_cons_self tr rest)
    cases ha : tr.any (fun s => containsPat eosTok s) with
    | false =>
      have hnone : (tr.filter (fun s => containsPat eosTok s)).length = 0 := by
        rw [List.length_eq_zero, List.filter_eq_nil_iff]
        intro a haa
        simpa using (List.any_eq_false.mp ha) a haa
      simp [List.filter_cons, ha, hnone, hrest]
    | true =>
      have hsome : (tr.filter (fun s => containsPat eosTok s)).length = 1 := by
        rcases List.any_eq_true.mp ha with ⟨a, haa, hfa⟩
        have hpos : 0 < (tr.filter (fun s => containsPat eosTok s)).length := by
          rw [List.length_pos]
          intro hnil
          exact absurd hfa
            (by simpa using List.filter_eq_nil_iff.mp hnil a haa)
        omega
      simp [List.filter_cons, ha, hsome, hrest]
      omega

/-- C1, amended.  With the repeat-skip policy enabled and each page's engine
trace carrying the end-of-sequence marker in at most one snapshot (the
engine's normal behaviour), every page contributes exactly once when its
trace has an end-marked snapshot and zero times otherwise: the raw markdown
is exactly the concatenation of the contributing pages' stripped texts each
followed by one page-split marker, and the number of rendered PDF frames
equals the number of contributing pages.  (Without these conditions a page
contributes once per processed snapshot — see the counterexample.) -/
theorem skip_repeat_page_contribution (traces : List (List Str))
    (H : ∀ tr ∈ traces,
      (tr.filter (fun s => containsPat eosTok s)).length ≤ 1) :
    (processDoc true traces).contentsDet =
        ((traces.map contributedOf).flatten).flatten ∧
      (processDoc true traces).drawCount =
        (traces.filter
          (fun tr => tr.any (fun s => containsPat eosTok s))).length ∧
      (processDoc true traces).jdx =
        (traces.filter
          (fun tr => tr.any (fun s => containsPat eosTok s))).length := by
  rcases processDocAux_true_spec traces initDocState with ⟨hdet, hdraw, hjdx⟩
  rw [sum_counts_eq_filter_length traces H] at hdraw hjdx
  exact ⟨by simpa [initDocState] using hdet,
    by simpa [initDocState] using hdraw,
    by simpa [initDocState] using hjdx⟩

theorem skip_repeat_page_contribution_witness :
    (∀ tr ∈ [[("hi".toList) ++ eosTok], [("x".toList)]],
        (tr.filter (fun s => containsPat eosTok s)).length ≤ 1) ∧
      ((processDoc true [[("hi".toList) ++ eosTok], [("x".toList)]]).contentsDet =
          (([[("hi".toList) ++ eosTok], [("x".toList)]].map
            contributedOf).flatten).flatten ∧
        (processDoc true
            [[("hi".toList) ++ eosTok], [("x".toList)]]).drawCount =
          ([[("hi".toList) ++ eosTok], [("x".toList)]].filter
            (fun tr => tr.any (fun s => containsPat eosTok s))).length ∧
        (processDoc true [[("hi".toList) ++ eosTok], [("x".toList)]]).jdx =
          ([[("hi".toList) ++ eosTok], [("x".toList)]].filter
            (fun tr => tr.any (fun s => containsPat eosTok s))).length) :=
  ⟨by decide, skip_repeat_page_contribution _ (by decide)⟩

/-- C1, counterexample.  With the repeat-skip policy disabled, a single-page
document whose engine session yields two snapshots — an incremental one
without the end marker and the final one with it — contributes twice: two
PDF frames and two page-split blocks for one page, contradicting the claim
that no page ever contributes more than once regardless of how many
incremental snapshots the engine stream yields. -/
theorem page_contributes_twice_without_skip_cex :
    (processDoc false [[("a".toList), ("ab".toList) ++ eosTok]]).drawCount =
        2 ∧
      (processDoc false [[("a".toList), ("ab".toList) ++ eosTok]]).jdx = 2 ∧
      [[("a".toList), ("ab".toList) ++ eosTok]].length = 1 := by
  refine ⟨?_, ?_, rfl⟩ <;> decide

/-! ### Streaming delta bookkeeping (claim C4) -/

theorem replay_aux (trace : List Str) :
    ∀ (t0 : Str) (acc : List Str),
      List.Chain' (fun a b : Str => a <+: b) (t0 :: trace) →
      acc.flatten = t0 →
      ((trace.foldl streamStep (acc, t0.length)).1).flatten =
        (t0 :: trace).getLastD [] := by
  induction trace with
  | nil =>
    intro t0 acc _ hacc
    simpa using hacc
  | cons t1 ts ih =>
    intro t0 acc hch hacc
    obtain ⟨hpre, hch'⟩ := List.chain'_cons.mp hch
    obtain ⟨suf, hsuf⟩ := hpre
    have hdrop : t1.drop t0.length = suf := by
      rw [← hsuf, List.drop_left]
    have hfold : (t1 :: ts).foldl streamStep (acc, t0.length) =
        ts.foldl streamStep (streamStep (acc, t0.length) t1) := rfl
    have hgl : (t0 :: t1 :: ts).getLastD ([] : Str) =
        (t1 :: ts).getLastD [] := rfl
    rw [hfold, hgl]
    by_cases hsufe : suf = ([] : Str)
    · have hstep : streamStep (acc, t0.length) t1 = (acc, t1.length) := by
        simp [streamStep, hdrop, hsufe]
      rw [hstep]
      exact ih t1 acc hch' (by rw [hacc, ← hsuf, hsufe, List.append_nil])
    · have hstep : streamStep (acc, t0.length) t1 =
          (acc ++ [suf], t1.length) := by
        simp [streamStep, hdrop, hsufe]
      rw [hstep]
      exact ih t1 (acc ++ [suf]) hch' (by simp [hacc, ← hsuf])

theorem deltas_nonempty_aux (trace : List Str) :
    ∀ (acc : List Str) (n : Nat), (∀ d ∈ acc, d ≠ []) →
      ∀ d ∈ (trace.foldl streamStep (acc, n)).1, d ≠ [] := by
  induction trace with
  | nil => intro acc n hacc; simpa using hacc
  | cons t ts ih =>
    intro acc n hacc
    have hfold : (t :: ts).foldl streamStep (acc, n) =
        ts.foldl streamStep (streamStep (acc, n) t) := rfl
    rw [hfold]
    by_cases hd : t.drop n = ([] : Str)
    · have hstep : streamStep (acc, n) t = (acc, t.length) := by
        simp [streamStep, hd]
      rw [hstep]
      exact ih acc t.length hacc
    · have hstep : streamStep (acc, n) t = (acc ++ [t.drop n], t.length) := by
        simp [streamStep, hd]
      rw [hstep]
      refine ih (acc ++ [t.drop n]) t.length ?_
      intro d hdm
      rcases List.mem_append.mp hdm with h | h
      · exact hacc d h
      · rcases List.mem_singleton.mp h with rfl
        exact hd

/-- C4.  For `stream_response`: over any engine trace whose snapshots are
successive prefix-extensions, the concatenation of the emitted deltas equals
the final full text, no empty (in particular no negative-length) delta is
ever emitted, and after every snapshot the length bookkeeping is reset to
that snapshot's length (also when it shrank).  For the streaming PDF path
the per-page law fails in the code: `stream_ocr_pdf_handle` reads the
variable `content`, which is never assigned, so on the failing input — one
page with snapshots `"ab"` then `"abc"` plus the end marker — the generator
emits the single delta `"ab"` and raises `NameError` instead of completing,
while the finalized page text of the same trace is `"abc"`. -/
theorem streaming_delta_replay_and_pdf_stream_failure (trace : List Str)
    (H : List.Chain' (fun a b : Str => a <+: b) trace) :
    ((stream_response_deltas trace).flatten = trace.getLastD [] ∧
        ∀ d ∈ stream_response_deltas trace, d ≠ []) ∧
      (∀ (st : List Str × Nat) (s : Str), (streamStep st s).2 = s.length) ∧
      streamOcrPdfRun [[("ab".toList), ("abc".toList) ++ eosTok]] 0 =
        ([("ab".toList)], false) ∧
      replaceAll eosTok [] (("abc".toList) ++ eosTok) = ("abc".toList) := by
  refine ⟨⟨?_, ?_⟩, fun st s => rfl, by decide, by decide⟩
  · cases trace with
    | nil => rfl
    | cons t0 ts =>
      have hstep : streamStep ([], 0) t0 =
          (if t0 = ([] : Str) then [] else [t0], t0.length) := by
        simp [streamStep]
      have hfold : stream_response_deltas (t0 :: ts) =
          (ts.foldl streamStep (streamStep ([], 0) t0)).1 := rfl
      rw [hfold, hstep]
      by_cases h0 : t0 = ([] : Str)
      · rw [if_pos h0]
        exact replay_aux ts t0 [] H (by simp [h0])
      · rw [if_neg h0]
        exact replay_aux ts t0 [t0] H (by simp)
  · intro d hd
    exact deltas_nonempty_aux trace [] 0 (by simp) d hd

theorem streaming_delta_replay_witness :
    ((stream_response_deltas [("a".toList), ("ab".toList)]).flatten =
          [("a".toList), ("ab".toList)].getLastD [] ∧
        ∀ d ∈ stream_response_deltas [("a".toList), ("ab".toList)],
          d ≠ []) ∧
      (∀ (st : List Str × Nat) (s : Str), (streamStep st s).2 = s.length) ∧
      streamOcrPdfRun [[("ab".toList), ("abc".toList) ++ eosTok]] 0 =
        ([("ab".toList)], false) ∧
      replaceAll eosTok [] (("abc".toList) ++ eosTok) = ("abc".toList) :=
  streaming_delta_replay_and_pdf_stream_failure
    [("a".toList), ("ab".toList)]
    (List.chain'_cons.mpr ⟨⟨("b".toList), rfl⟩, List.chain'_singleton _⟩)

/-! ### The renderer never mutates the input page (claim C8) -/

theorem boxStep_heap_at_imageRef {B : Type} (ops : PixOps B)
    (imageRef imgDrawRef overlayRef : Nat) (w h : Nat) (lab : Str)
    (jdx : Nat) (st : RenderSt B) (a b c d : ℤ)
    (hd : imgDrawRef ≠ imageRef) (ho : overlayRef ≠ imageRef) :
    (boxStep ops imageRef imgDrawRef overlayRef w h lab jdx
        st a b c d).heap[imageRef]? = st.heap[imageRef]? := by
  by_cases hl : lab = labelImage <;>
    simp [boxStep, hl, List.getElem?_set_ne hd, List.getElem?_set_ne ho]

theorem boxStep_saved {B : Type} (ops : PixOps B)
    (imageRef imgDrawRef overlayRef : Nat) (w h : Nat) (lab : Str)
    (jdx : Nat) (st : RenderSt B) (a b c d : ℤ) :
    (boxStep ops imageRef imgDrawRef overlayRef w h lab jdx
        st a b c d).saved =
      if lab = labelImage then
        st.saved ++
          [((jdx, st.imgIdx),
            ops.crop (st.heap.getD imageRef (ops.blank (0, 0)))
              (denormDraw a w, denormDraw b h, denormDraw c w,
                denormDraw d h))]
      else st.saved := by
  by_cases hl : lab = labelImage <;> simp [boxStep, hl]

theorem boxStep_imgIdx {B : Type} (ops : PixOps B)
    (imageRef imgDrawRef overlayRef : Nat) (w h : Nat) (lab : Str)
    (jdx : Nat) (st : RenderSt B) (a b c d : ℤ) :
    (boxStep ops imageRef imgDrawRef overlayRef w h lab jdx
        st a b c d).imgIdx =
      if lab = labelImage then st.imgIdx + 1 else st.imgIdx := by
  by_cases hl : lab = labelImage <;> simp [boxStep, hl]

theorem processBoxes_inv {B : Type} (ops : PixOps B)
    (imageRef imgDrawRef overlayRef : Nat) (w h : Nat) (lab : Str)
    (jdx : Nat) (hd : imgDrawRef ≠ imageRef) (ho : overlayRef ≠ imageRef) :
    ∀ (pts : List PyVal) (st : RenderSt B),
      ((processBoxes ops imageRef imgDrawRef overlayRef w h lab jdx
          st pts).heap[imageRef]? = st.heap[imageRef]?) ∧
        ∀ p ∈ (processBoxes ops imageRef imgDrawRef overlayRef w h lab jdx
            st pts).saved,
          p ∈ st.saved ∨
            ∃ rect,
              p.2 = ops.crop (st.heap.getD imageRef (ops.blank (0, 0)))
                rect := by
  intro pts
  induction pts with
  | nil => intro st; exact ⟨rfl, fun p hp => Or.inl hp⟩
  | cons v rest ih =>
    intro st
    cases hb : boxOfPyVal v with
    | none =>
      have hunf : processBoxes ops imageRef imgDrawRef overlayRef w h lab
          jdx st (v :: rest) = st := by
        simp [processBoxes, hb]
      rw [hunf]
      exact ⟨rfl, fun p hp => Or.inl hp⟩
    | some quad =>
      obtain ⟨a, b, c, d⟩ := quad
      have hunf :
          processBoxes ops imageRef imgDrawRef overlayRef w h lab jdx st
              (v :: rest) =
            processBoxes ops imageRef imgDrawRef overlayRef w h lab jdx
              (boxStep ops imageRef imgDrawRef overlayRef w h lab jdx st
                a b c d) rest := by
        simp [processBoxes, hb]
      have hheap :
          (boxStep ops imageRef imgDrawRef overlayRef w h lab jdx st
              a b c d).heap[imageRef]? = st.heap[imageRef]? :=
        boxStep_heap_at_imageRef ops imageRef imgDrawRef overlayRef w h lab
          jdx st a b c d hd ho
      have hgetD :
          (boxStep ops imageRef imgDrawRef overlayRef w h lab jdx st
              a b c d).heap.getD imageRef (ops.blank (0, 0)) =
            st.heap.getD imageRef (ops.blank (0, 0)) := by
        rw [List.getD_eq_getElem?_getD, List.getD_eq_getElem?_getD, hheap]
      obtain ⟨ihh, ihs⟩ :=
        ih (boxStep ops imageRef imgDrawRef overlayRef w h lab jdx st
          a b c d)
      constructor
      · rw [hunf, ihh, hheap]
      · intro p hp
        rw [hunf] at hp
        rcases ihs p hp with hmem | ⟨rect, hrect⟩
        · rw [boxStep_saved] at hmem
          by_cases hl : lab = labelImage
          · rw [if_pos hl] at hmem
            rcases List.mem_append.mp hmem with h1 | h1
            · exact Or.inl h1
            · rcases List.mem_singleton.mp h1 with rfl
              exact Or.inr ⟨_, rfl⟩
          · rw [if_neg hl] at hmem
            exact Or.inl hmem
        · exact Or.inr ⟨rect, by rw [hrect, hgetD]⟩

theorem renderFold_inv {B : Type} (ops : PixOps B)
    (imageRef imgDrawRef overlayRef : Nat) (w h : Nat) (jdx : Nat)
    (hd : imgDrawRef ≠ imageRef) (ho : overlayRef ≠ imageRef) :
    ∀ (refs : List RefMatch) (st : RenderSt B),
      ((refs.foldl
          (renderMatchStep ops imageRef imgDrawRef overlayRef w h jdx)
          st).heap[imageRef]? = st.heap[imageRef]?) ∧
        ∀ p ∈ (refs.foldl
            (renderMatchStep ops imageRef imgDrawRef overlayRef w h jdx)
            st).saved,
          p ∈ st.saved ∨
            ∃ rect,
              p.2 = ops.crop (st.heap.getD imageRef (ops.blank (0, 0)))
                rect := by
  intro refs
  induction refs with
  | nil => intro st; exact ⟨rfl, fun p hp => Or.inl hp⟩
  | cons m rest ih =>
    intro st
    have hfold : (m :: rest).foldl
        (renderMatchStep ops imageRef imgDrawRef overlayRef w h jdx) st =
        rest.foldl
          (renderMatchStep ops imageRef imgDrawRef overlayRef w h jdx)
          (renderMatchStep ops imageRef imgDrawRef overlayRef w h jdx st
            m) := rfl
    have hstep :
        (renderMatchStep ops imageRef imgDrawRef overlayRef w h jdx st
            m).heap[imageRef]? = st.heap[imageRef]? ∧
          ∀ p ∈ (renderMatchStep ops imageRef imgDrawRef overlayRef w h jdx
              st m).saved,
            p ∈ st.saved ∨
              ∃ rect,
                p.2 = ops.crop (st.heap.getD imageRef (ops.blank (0, 0)))
                  rect := by
      rw [renderMatchStep]
      cases extract_coordinates_and_label m with
      | none => exact ⟨rfl, fun p hp => Or.inl hp⟩
      | some lv =>
        obtain ⟨lab, v⟩ := lv
        cases v with
        | num n => exact ⟨rfl, fun p hp => Or.inl hp⟩
        | lst pts =>
          exact processBoxes_inv ops imageRef imgDrawRef overlayRef w h lab
            jdx hd ho pts st
    obtain ⟨hsh, hss⟩ := hstep
    have hgetD :
        (renderMatchStep ops imageRef imgDrawRef overlayRef w h jdx st
            m).heap.getD imageRef (ops.blank (0, 0)) =
          st.heap.getD imageRef (ops.blank (0, 0)) := by
      rw [List.getD_eq_getElem?_getD, List.getD_eq_getElem?_getD, hsh]
    obtain ⟨ihh, ihs⟩ :=
      ih (renderMatchStep ops imageRef imgDrawRef overlayRef w h jdx st m)
    constructor
    · rw [hfold, ihh, hsh]
    · intro p hp
      rw [hfold] at hp
      rcases ihs p hp with hmem | ⟨rect, hrect⟩
      · rcases hss p hmem with h1 | ⟨rect, hrect⟩
        · exact Or.inl h1
        · exact Or.inr ⟨rect, hrect⟩
      · exact Or.inr ⟨rect, by rw [hrect, hgetD]⟩

/-- C8.  `draw_bounding_boxes` leaves the input page image unchanged: its
heap cell after the call equals its cell before, every outline, fill and
caption having been drawn on the freshly allocated copy (whose reference,
`heap0.length`, is returned and differs from the input's); and every saved
sub-image is a crop of the input page image as it was before the call —
the original, undrawn bitmap. -/
theorem renderer_never_mutates_input_and_crops_from_original {B : Type}
    (ops : PixOps B) (heap0 : List B) (imageRef : Nat)
    (refs : List RefMatch) (jdx : Nat) (hi : imageRef < heap0.length) :
    ((draw_bounding_boxes ops heap0 imageRef refs jdx).heap[imageRef]? =
        heap0[imageRef]?) ∧
      (∀ p ∈ (draw_bounding_boxes ops heap0 imageRef refs jdx).saved,
        ∃ rect,
          p.2 = ops.crop (heap0.getD imageRef (ops.blank (0, 0))) rect) ∧
      (draw_bounding_boxes ops heap0 imageRef refs jdx).resultRef =
        heap0.length ∧
      imageRef ≠ heap0.length := by
  have hd : heap0.length ≠ imageRef := Nat.ne_of_gt hi
  have hlen1 : (heap0 ++
      [heap0.getD imageRef (ops.blank (0, 0))]).length = heap0.length + 1 := by
    simp
  have ho : (heap0 ++
      [heap0.getD imageRef (ops.blank (0, 0))]).length ≠ imageRef := by
    rw [hlen1]; omega
  obtain ⟨hfh, hfs⟩ :=
    renderFold_inv ops imageRef heap0.length
      (heap0 ++ [heap0.getD imageRef (ops.blank (0, 0))]).length
      (ops.size (heap0.getD imageRef (ops.blank (0, 0)))).1
      (ops.size (heap0.getD imageRef (ops.blank (0, 0)))).2 jdx hd ho refs
      ⟨heap0 ++ [heap0.getD imageRef (ops.blank (0, 0))] ++
          [ops.blank (ops.size (heap0.getD imageRef (ops.blank (0, 0))))],
        [], 0⟩
  have hbase :
      (heap0 ++ [heap0.getD imageRef (ops.blank (0, 0))] ++
          [ops.blank
            (ops.size (heap0.getD imageRef
              (ops.blank (0, 0))))])[imageRef]? = heap0[imageRef]? := by
    rw [List.getElem?_append_left (by simp; omega),
      List.getElem?_append_left hi]
  have hbaseD :
      (heap0 ++ [heap0.getD imageRef (ops.blank (0, 0))] ++
          [ops.blank
            (ops.size (heap0.getD imageRef
              (ops.blank (0, 0))))]).getD imageRef (ops.blank (0, 0)) =
        heap0.getD imageRef (ops.blank (0, 0)) := by
    conv_lhs => rw [List.getD_eq_getElem?_getD, hbase]
    rw [List.getD_eq_getElem?_getD]
  refine ⟨?_, ?_, rfl, Nat.ne_of_lt hi⟩
  · show ((RenderSt.heap _).set heap0.length _)[imageRef]? = heap0[imageRef]?
    rw [List.getElem?_set_ne hd, hfh, hbase]
  · intro p hp
    rcases hfs p hp with hmem | ⟨rect, hrect⟩
    · exact absurd hmem (List.not_mem_nil p)
    · exact ⟨rect, by rw [hrect, hbaseD]⟩

/-! ### Saved sub-image files versus clean-markdown references (claim C10) -/

/-- The file-number sequence `(jdx, start), (jdx, start+1), …` of length `n`. -/
def nameSeq (jdx start n : Nat) : List (Nat × Nat) :=
  (List.range n).map (fun i => (jdx, start + i))

theorem nameSeq_succ (jdx start n : Nat) :
    nameSeq jdx start (n + 1) = (jdx, start) :: nameSeq jdx (start + 1) n := by
  rw [nameSeq, List.range_succ_eq_map, List.map_cons, List.map_map]
  congr 1
  apply List.map_congr_left
  intro i _
  simp only [Function.comp_apply, Prod.mk.injEq, true_and]
  omega

theorem processBoxes_other_saved {B : Type} (ops : PixOps B)
    (imageRef imgDrawRef overlayRef : Nat) (w h : Nat) (lab : Str)
    (jdx : Nat) (hl : lab ≠ labelImage) :
    ∀ (pts : List PyVal) (st : RenderSt B),
      (processBoxes ops imageRef imgDrawRef overlayRef w h lab jdx
          st pts).saved = st.saved ∧
        (processBoxes ops imageRef imgDrawRef overlayRef w h lab jdx
          st pts).imgIdx = st.imgIdx := by
  intro pts
  induction pts with
  | nil => intro st; exact ⟨rfl, rfl⟩
  | cons v rest ih =>
    intro st
    cases hb : boxOfPyVal v with
    | none =>
      have hunf : processBoxes ops imageRef imgDrawRef overlayRef w h lab
          jdx st (v :: rest) = st := by
        simp [processBoxes, hb]
      rw [hunf]
      exact ⟨rfl, rfl⟩
    | some quad =>
      obtain ⟨a, b, c, d⟩ := quad
      have hunf :
          processBoxes ops imageRef imgDrawRef overlayRef w h lab jdx st
              (v :: rest) =
            processBoxes ops imageRef imgDrawRef overlayRef w h lab jdx
              (boxStep ops imageRef imgDrawRef overlayRef w h lab jdx st
                a b c d) rest := by
        simp [processBoxes, hb]
      obtain ⟨ihs, ihi⟩ :=
        ih (boxStep ops imageRef imgDrawRef overlayRef w h lab jdx st
          a b c d)
      rw [hunf, ihs, ihi, boxStep_saved, boxStep_imgIdx, if_neg hl,
        if_neg hl]
      exact ⟨rfl, rfl⟩

theorem processBoxes_image_single {B : Type} (ops : PixOps B)
    (imageRef imgDrawRef overlayRef : Nat) (w h : Nat) (lab : Str)
    (jdx : Nat) (hl : lab = labelImage) (a b c d : ℤ) (st : RenderSt B) :
    (processBoxes ops imageRef imgDrawRef overlayRef w h lab jdx st
        [PyVal.lst [.num a, .num b, .num c, .num d]]).saved.map
          (fun p => p.1) =
        st.saved.map (fun p => p.1) ++ [(jdx, st.imgIdx)] ∧
      (processBoxes ops imageRef imgDrawRef overlayRef w h lab jdx st
        [PyVal.lst [.num a, .num b, .num c, .num d]]).imgIdx =
        st.imgIdx + 1 := by
  have hunf :
      processBoxes ops imageRef imgDrawRef overlayRef w h lab jdx st
          [PyVal.lst [.num a, .num b, .num c, .num d]] =
        boxStep ops imageRef imgDrawRef overlayRef w h lab jdx st
          a b c d := rfl
  rw [hunf, boxStep_saved, boxStep_imgIdx, if_pos hl, if_pos hl]
  simp

theorem renderFold_names {B : Type} (ops : PixOps B)
    (imageRef imgDrawRef overlayRef : Nat) (w h : Nat) (jdx : Nat) :
    ∀ (refs : List RefMatch) (st : RenderSt B),
      (∀ m ∈ refs, (isImageMatch m = true ↔ m.label = labelImage)) →
      (∀ m ∈ refs, isImageMatch m = true →
        ∃ a b c d : ℤ, parseCoordVal m.coords =
          some (.lst [.lst [.num a, .num b, .num c, .num d]])) →
      ((refs.foldl
          (renderMatchStep ops imageRef imgDrawRef overlayRef w h jdx)
          st).saved.map (fun p => p.1) =
        st.saved.map (fun p => p.1) ++
          nameSeq jdx st.imgIdx
            (refs.filter (fun m => isImageMatch m)).length) ∧
        (refs.foldl
          (renderMatchStep ops imageRef imgDrawRef overlayRef w h jdx)
          st).imgIdx =
          st.imgIdx + (refs.filter (fun m => isImageMatch m)).length := by
  intro refs
  induction refs with
  | nil => intro st _ _; simp [nameSeq]
  | cons m rest ih =>
    intro st Hcls Hbox
    have hfold : (m :: rest).foldl
        (renderMatchStep ops imageRef imgDrawRef overlayRef w h jdx) st =
        rest.foldl
          (renderMatchStep ops imageRef imgDrawRef overlayRef w h jdx)
          (renderMatchStep ops imageRef imgDrawRef overlayRef w h jdx st
            m) := rfl
    obtain ⟨ihs, ihi⟩ :=
      ih (renderMatchStep ops imageRef imgDrawRef overlayRef w h jdx st m)
        (fun x hx => Hcls x (List.mem_cons_of_mem m hx))
        (fun x hx => Hbox x (List.mem_cons_of_mem m hx))
    cases himg : isImageMatch m with
    | true =>
      have hlab : m.label = labelImage :=
        (Hcls m (List.mem_cons_self m rest)).mp himg
      obtain ⟨a, b, c, d, hparse⟩ :=
        Hbox m (List.mem_cons_self m rest) himg
      have hstep : renderMatchStep ops imageRef imgDrawRef overlayRef w h
          jdx st m =
          processBoxes ops imageRef imgDrawRef overlayRef w h m.label jdx
            st [PyVal.lst [.num a, .num b, .num c, .num d]] := by
        rw [renderMatchStep, extract_coordinates_and_label, hparse]
      obtain ⟨hsv, hidx⟩ :=
        processBoxes_image_single ops imageRef imgDrawRef overlayRef w h
          m.label jdx hlab a b c d st
      have hflt : ((m :: rest).filter (fun x => isImageMatch x)).length =
          (rest.filter (fun x => isImageMatch x)).length + 1 := by
        simp [List.filter_cons, himg]
      constructor
      · rw [hfold, ihs, hstep, hsv, hidx, hflt, nameSeq_succ]
        simp
      · rw [hfold, ihi, hstep, hidx, hflt]
        omega
    | false =>
      have hlab : m.label ≠ labelImage := by
        intro hc
        rw [(Hcls m (List.mem_cons_self m rest)).mpr hc] at himg
        cases himg
      have hstep2 :
          (renderMatchStep ops imageRef imgDrawRef overlayRef w h jdx st
              m).saved = st.saved ∧
            (renderMatchStep ops imageRef imgDrawRef overlayRef w h jdx st
              m).imgIdx = st.imgIdx := by
        rw [renderMatchStep]
        cases hex : extract_coordinates_and_label m with
        | none => exact ⟨rfl, rfl⟩
        | some lv =>
          obtain ⟨lab, v⟩ := lv
          have hlab2 : lab = m.label := by
            rw [extract_coordinates_and_label] at hex
            cases hpc : parseCoordVal m.coords with
            | none => rw [hpc] at hex; cases hex
            | some v' => rw [hpc] at hex; cases hex; rfl
          cases v with
          | num n => exact ⟨rfl, rfl⟩
          | lst pts =>
            exact processBoxes_other_saved ops imageRef imgDrawRef
              overlayRef w h lab jdx (by rw [hlab2]; exact hlab) pts st
      have hflt : ((m :: rest).filter (fun x => isImageMatch x)).length =
          (rest.filter (fun x => isImageMatch x)).length := by
        simp [List.filter_cons, himg]
      constructor
      · rw [hfold, ihs, hstep2.1, hstep2.2, hflt]
      · rw [hfold, ihi, hstep2.2, hflt]

/-- C10, amended.  When every image-classified match of the page text has
label exactly `image` and a coordinate literal of exactly one box, the
renderer's per-box counter produces the saved file numbers
`jdx_0 … jdx_{n-1}` for the `n` image matches in order; these coincide with
the references the clean-markdown substitution introduces whenever each
image span's text is still present at its substitution turn (the
`Hlog` hypothesis — guaranteed e.g. for pairwise-distinct span texts, and
violated by duplicate spans, see the counterexample). -/
theorem saved_subimages_match_clean_markdown_references {B : Type}
    (ops : PixOps B) (heap0 : List B) (imageRef : Nat) (c : Str)
    (jdx : Nat)
    (Hcls : ∀ m ∈ reMatch c, (isImageMatch m = true ↔ m.label = labelImage))
    (Hbox : ∀ m ∈ reMatch c, isImageMatch m = true →
      ∃ a b c' d : ℤ, parseCoordVal m.coords =
        some (.lst [.lst [.num a, .num b, .num c', .num d]]))
    (Hlog : (imageSubstLog jdx (reMatchTriple c).image c).2 =
      nameSeq jdx 0 (reMatchTriple c).image.length) :
    savedNames
        (draw_bounding_boxes ops heap0 imageRef (reMatchTriple c).all jdx) =
      (imageSubstLog jdx (reMatchTriple c).image c).2 := by
  rw [Hlog]
  have h := renderFold_names ops imageRef heap0.length
    (heap0 ++ [heap0.getD imageRef (ops.blank (0, 0))]).length
    (ops.size (heap0.getD imageRef (ops.blank (0, 0)))).1
    (ops.size (heap0.getD imageRef (ops.blank (0, 0)))).2 jdx
    (reMatchTriple c).all
    ⟨heap0 ++ [heap0.getD imageRef (ops.blank (0, 0))] ++
        [ops.blank (ops.size (heap0.getD imageRef (ops.blank (0, 0))))],
      [], 0⟩ Hcls Hbox
  have hnames : savedNames
      (draw_bounding_boxes ops heap0 imageRef (reMatchTriple c).all jdx) =
      (((reMatchTriple c).all).foldl
        (renderMatchStep ops imageRef heap0.length
          (heap0 ++ [heap0.getD imageRef (ops.blank (0, 0))]).length
          (ops.size (heap0.getD imageRef (ops.blank (0, 0)))).1
          (ops.size (heap0.getD imageRef (ops.blank (0, 0)))).2 jdx)
        ⟨heap0 ++ [heap0.getD imageRef (ops.blank (0, 0))] ++
            [ops.blank
              (ops.size (heap0.getD imageRef (ops.blank (0, 0))))],
          [], 0⟩).saved.map (fun p => p.1) := rfl
  rw [hnames, h.1]
  simp [reMatchTriple]

theorem renderer_never_mutates_witness :
    (0 < [(5 : Nat)].length) ∧
      (((draw_bounding_boxes natOps [(5 : Nat)] 0 [imgSpanDemo] 0).heap[0]? =
          [(5 : Nat)][0]?) ∧
        (∀ p ∈ (draw_bounding_boxes natOps [(5 : Nat)] 0 [imgSpanDemo]
            0).saved,
          ∃ rect,
            p.2 = natOps.crop ([(5 : Nat)].getD 0 (natOps.blank (0, 0)))
              rect) ∧
        (draw_bounding_boxes natOps [(5 : Nat)] 0 [imgSpanDemo]
            0).resultRef = [(5 : Nat)].length ∧
        0 ≠ [(5 : Nat)].length) :=
  ⟨by decide,
    renderer_never_mutates_input_and_crops_from_original natOps [(5 : Nat)]
      0 [imgSpanDemo] 0 (by decide)⟩

theorem saved_subimages_match_references_witness :
    savedNames
        (draw_bounding_boxes natOps [(5 : Nat)] 0
          (reMatchTriple imgSpanText).all 0) =
      (imageSubstLog 0 (reMatchTriple imgSpanText).image imgSpanText).2 :=
  saved_subimages_match_clean_markdown_references natOps [(5 : Nat)] 0
    imgSpanText 0
    (by decide)
    (by
      intro m hm _
      rw [show reMatch imgSpanText = [imgSpanDemo] from by decide] at hm
      rcases List.mem_singleton.mp hm with rfl
      exact ⟨1, 2, 3, 4, rfl⟩)
    (by decide)

/-- C10, counterexample.  A page whose text is the same well-formed
single-box image span twice satisfies the claim's precondition (every
image-labelled matched span encodes exactly one coordinate box), yet the
renderer saves the two files `0_0` and `0_1` while the clean markdown only
ever references `0_0`: the first `str.replace` call replaces *both*
occurrences of the span text, so the substitution for index 1 finds nothing.
The saved-file set and the referenced set differ, refuting the claim. -/
theorem duplicate_image_span_reference_mismatch_cex :
    (∀ m ∈ (reMatchTriple dupSpanText).image, m.label = labelImage) ∧
      (∀ m ∈ (reMatchTriple dupSpanText).image,
        parseCoordVal m.coords =
          some (.lst [.lst [.num 1, .num 2, .num 3, .num 4]])) ∧
      savedNames
          (draw_bounding_boxes natOps [(5 : Nat)] 0
            (reMatchTriple dupSpanText).all 0) = [(0, 0), (0, 1)] ∧
      (imageSubstLog 0 (reMatchTriple dupSpanText).image dupSpanText).2 =
        [(0, 0)] ∧
      ¬ ((0, 1) ∈
        (imageSubstLog 0 (reMatchTriple dupSpanText).image
          dupSpanText).2) := by
  refine ⟨by decide, ?_, by decide, by decide, by decide⟩
  intro m hm
  rw [show (reMatchTriple dupSpanText).image = [imgSpanDemo, imgSpanDemo]
    from by decide] at hm
  rcases List.mem_cons.mp hm with rfl | hm2
  · rfl
  · rcases List.mem_singleton.mp hm2 with rfl
    rfl
